import Mathlib

/-!
Shallow embedding of `blendgit.py` (a Blender add-on that versions a .blend
document plus its externally referenced files in a per-document Git repo).

The Python module is stateful code built around filesystem and subprocess
calls.  We model it as follows:

* Pure path computations (`get_repo_name`, `get_workdir_name`,
  `os.path.split`, `os.path.basename`, `os.path.join`, `str.strip`) are
  translated to pure Lean functions on `String`.  The add-on hardcodes
  `OS = "linux"` and `hide_git_dir = True`, so only those branches are
  modelled.
* Every external side effect is reified as an `Effect` value; an execution
  produces a trace (the list of effects attempted, in order).
* Failure injection: an `oracle : Effect → Outcome` decides, per effect,
  whether the call succeeds (`ok`), fails with an "already exists" error
  (`already`, i.e. `errno.EEXIST` / `FileExistsError`), or fails with any
  other error (`err`).  Python exception propagation is modelled by an
  `alive` flag: the source has no try/finally, so once an uncaught
  exception is raised nothing further executes.
* Python's recursion limit for the `process_node` walk is modelled by a
  fuel parameter: exhausting the fuel is `RecursionError`, an ordinary
  uncaught exception (`alive := false`).
-/

namespace Blendgit

/-- Python `s.startswith(pre)`: prefix test on the character sequences. -/
def pyStartswith (s pre : String) : Bool :=
  pre.data.isPrefixOf s.data

/-- Python `str.strip()` whitespace test, for the ASCII whitespace class. -/
def isPySpace (c : Char) : Bool :=
  c = ' ' || c = '\t' || c = '\n' || c = '\r' || c = '\x0b' || c = '\x0c'

/-- Python `s.strip()`: drop leading and trailing whitespace. -/
def pyStrip (s : String) : String :=
  String.mk (((s.data.dropWhile isPySpace).reverse.dropWhile isPySpace).reverse)

/-- Python `os.path.basename(s)` (POSIX): the part after the last `/`
(empty if `s` ends in `/`).  Computed by resetting at every slash. -/
def pyBasename (s : String) : String :=
  String.mk (s.data.foldl (fun acc c => if c = '/' then [] else acc ++ [c]) [])

/-- Python `os.path.split(s)[0]` (POSIX): everything before the last `/`,
with trailing slashes stripped from the head unless the head is all
slashes. -/
def pySplitHead (s : String) : String :=
  let l := s.data
  let head := l.take (l.length - (l.reverse.takeWhile (fun c => c ≠ '/')).length)
  String.mk
    (if head ≠ [] ∧ head.any (fun c => c ≠ '/') then
       (head.reverse.dropWhile (fun c => c = '/')).reverse
     else head)

/-- Python `os.path.join(a, b)` (POSIX, two components): `b` if `b` is
absolute, otherwise `a ++ "/" ++ b`.  (The workdir paths fed to it never
end in a slash.) -/
def pyJoin (a b : String) : String :=
  match b.data with
  | '/' :: _ => b
  | _ => a ++ "/" ++ b

/-- `get_repo_name()` for `hide_git_dir = True`, `OS = "linux"`:
`"/".join(path_split[:-1]) + "/." + path_split[-1] + ".git"` where
`path_split = filepath.split("/")`. -/
def get_repo_name (filepath : String) : String :=
  let path_split := filepath.splitOn "/"
  String.intercalate "/" path_split.dropLast ++ "/." ++ path_split.getLastD "" ++ ".git"

/-- `get_workdir_name()`: `bpy.data.filepath + ".work"`. -/
def get_workdir_name (filepath : String) : String :=
  filepath ++ ".work"

/-- `doc_saved()`: `len(bpy.data.filepath) != 0`. -/
def doc_saved (filepath : String) : Bool :=
  filepath.length != 0

/-- One externally referenceable asset (font / image / library / sound):
the attributes the source reads.  `packed_file` is `true` when the Python
attribute `packed_file` is not `None` (the bytes are packed into the
.blend); `type` is the string returned by `getattr(item, "type")`. -/
structure Item where
  packed_file : Bool
  filepath : String
  type : String
  deriving DecidableEq, Repr

/-- The shader-node variants `process_node` distinguishes:
`subnode.type == "GROUP"`, `isinstance(subnode, ShaderNodeScript)`,
`isinstance(subnode, ShaderNodeTexIES)`, anything else. -/
inductive NodeKind where
  | group
  | script
  | texIES
  | other
  deriving DecidableEq, Repr

/-- A node (or node-bearing datablock such as a material or light):
`node_tree` is `None` or the identity of a composition graph whose nodes
are listed in the environment's `graph`. -/
structure Node where
  kind : NodeKind
  node_tree : Option String
  mode : String
  filepath : String
  deriving DecidableEq, Repr

/-- An external side effect attempted by the add-on. -/
inductive Effect where
  /-- `os.mkdir path` -/
  | mkdir (path : String)
  /-- `os.symlink target link` -/
  | symlink (target link : String)
  /-- `os.makedirs path (exist_ok = True)` -/
  | makedirs (path : String)
  /-- `os.link src dst` -/
  | hardlink (src dst : String)
  /-- `subprocess.check_output(("git",) + args, cwd = cwd, env = env)` where
  `gitDirEnv` is the value of `GIT_DIR` in the subprocess environment
  (`none` = absent). -/
  | gitCmd (args : List String) (gitDirEnv : Option String) (cwd : String)
  /-- `shutil.rmtree path` -/
  | rmtree (path : String)
  /-- `bpy.ops.wm.save_as_mainfile(filepath = path)` -/
  | saveMainfile (path : String)
  /-- `bpy.ops.wm.open_mainfile(filepath = path)` -/
  | openMainfile (path : String)
  /-- `self.report({"ERROR"}, msg)` -/
  | report (msg : String)
  deriving DecidableEq, Repr

/-- Result of attempting one effect. -/
inductive Outcome where
  | ok
  | already
  | err
  deriving DecidableEq, Repr

/-- Operator return values (`{"FINISHED"}`, `{"CANCELLED"}`) plus the case
where an uncaught Python exception propagates out of `execute`. -/
inductive OpResult where
  | finished
  | cancelled
  | exception
  deriving DecidableEq, Repr

/-- Result of `invoke`: a properties dialog, or `{"CANCELLED"}`. -/
inductive InvokeResult where
  | dialog
  | cancelled
  deriving DecidableEq, Repr

/-- Execution state: the trace of effects attempted so far, whether
execution is still live (no uncaught exception pending), and the
`seen_filepaths` set (as a list, most recent first). -/
structure SState where
  trace : List Effect
  alive : Bool
  seen : List String
  deriving DecidableEq, Repr

/-- The fresh state at the start of `SaveVersion.execute`. -/
def initState : SState := { trace := [], alive := true, seen := [] }

/-- Attempt one effect: append it to the trace and update liveness from the
oracle's outcome.  `tolerateExists` is true when the source catches the
"already exists" error (`errno.EEXIST` / `FileExistsError` / `exist_ok`). -/
def emit (oracle : Effect → Outcome) (tolerateExists : Bool) (e : Effect)
    (s : SState) : SState :=
  if ¬ s.alive then s
  else
    match oracle e with
    | Outcome.ok => { s with trace := s.trace ++ [e] }
    | Outcome.already => { s with trace := s.trace ++ [e], alive := tolerateExists }
    | Outcome.err => { s with trace := s.trace ++ [e], alive := false }

/-- `do_git(args, saving)`: the Git invocation it performs.  With
`saving = True` the subprocess runs with `GIT_DIR` popped from the
environment and the work directory as cwd; otherwise `GIT_DIR` is set to
the repo name and the .blend file's parent directory is the cwd. -/
def do_git (filepath : String) (args : List String) (saving : Bool) : Effect :=
  if saving then
    Effect.gitCmd args none (get_workdir_name filepath)
  else
    Effect.gitCmd args (some (get_repo_name filepath)) (pySplitHead filepath)

/-- `setup_workdir()`: `os.mkdir` of the work directory (tolerating
`EEXIST`), then `os.symlink("../" + basename(repo), workdir + "/.git")` —
the symlink call is *outside* the try/except, so any of its failures
(including `FileExistsError`) propagates. -/
def setup_workdir_E (oracle : Effect → Outcome) (filepath : String)
    (s : SState) : SState :=
  let work_dir := get_workdir_name filepath
  let s := emit oracle true (Effect.mkdir work_dir) s
  emit oracle false
    (Effect.symlink ("../" ++ pyBasename (get_repo_name filepath))
      (pyJoin work_dir ".git")) s

/-- The document-model state `SaveVersion.execute` reads: the saved
document path, whether the repo directory already exists
(`os.path.isdir(repo_name)`), the four trackable asset categories, the
node-bearing datablocks, and the composition graphs (`node_tree` identity
→ its `.nodes` list). -/
structure SaveEnv where
  filepath : String
  repoIsDir : Bool
  fonts : List Item
  images : List Item
  libraries : List Item
  sounds : List Item
  materials : List Node
  lights : List Node
  graph : List (String × List Node)
  deriving DecidableEq, Repr

/-- `getattr(item, k)` for the keys the match/mismatch tables use. -/
def pyGetattr (item : Item) (k : String) : String :=
  if k = "filepath" then item.filepath
  else if k = "type" then item.type
  else ""

/-- The per-item condition of the category loop in `SaveVersion.execute`:
`item.packed_file == None and item.filepath.startswith("//") and
not item.filepath.startswith("//..") and
not any(getattr(item, k) == v for k, v in mismatch) and
all(getattr(item, k) == match[k] for k in match)`. -/
def itemFilter (matchRules mismatchRules : List (String × String))
    (item : Item) : Bool :=
  !item.packed_file
    && pyStartswith item.filepath "//"
    && !(pyStartswith item.filepath "//..")
    && !(mismatchRules.any fun kv => pyGetattr item kv.1 = kv.2)
    && (matchRules.all fun kv => pyGetattr item kv.1 = kv.2)

/-- The literal `(category, match, mismatch)` table of
`SaveVersion.execute`, with each category name replaced by the
corresponding `bpy.data` item list. -/
def categoriesTable (env : SaveEnv) :
    List (List Item × List (String × String) × List (String × String)) :=
  [ (env.fonts, [], [("filepath", "<builtin>")]),
    (env.images, [("type", "IMAGE")], []),
    (env.libraries, [], []),
    (env.sounds, [], []) ]

/-- `process_item(item)`, given `item.filepath`: skip if already seen;
otherwise record it as seen, `os.makedirs` the sub-parent directory if
nonempty (`exist_ok = True`), hard-link
`os.path.join(parent_dir, filepath[2:])` to
`os.path.join(work_dir, filepath[2:])` catching `FileExistsError`, then
`do_git(("add", "--", dst_path), saving = True)`. -/
def processItemE (oracle : Effect → Outcome) (env : SaveEnv)
    (item_filepath : String) (s : SState) : SState :=
  if ¬ s.alive then s
  else if item_filepath ∈ s.seen then s
  else
    let s := { s with seen := item_filepath :: s.seen }
    let filepath := item_filepath.drop 2
    let subparent_dir := pySplitHead filepath
    let work_dir := get_workdir_name env.filepath
    let s :=
      if subparent_dir.length ≠ 0 then
        emit oracle true (Effect.makedirs (pyJoin work_dir subparent_dir)) s
      else s
    let dst_path := pyJoin work_dir filepath
    let s :=
      emit oracle true
        (Effect.hardlink (pyJoin (pySplitHead env.filepath) filepath) dst_path) s
    emit oracle false (do_git env.filepath ["add", "--", dst_path] true) s

/-- Nodes of the composition graph with the given identity (the `.nodes`
of a `node_tree`). -/
def treeNodes (g : List (String × List Node)) (tid : String) : List Node :=
  (List.lookup tid g).getD []

mutual

/-- `process_node(node)`: if `node.node_tree` is not `None`, walk its
nodes.  Each recursive `process_node` call consumes one unit of fuel
(one Python stack frame); fuel 0 models `RecursionError`, an uncaught
exception. -/
def processNodeE (oracle : Effect → Outcome) (env : SaveEnv) (fuel : Nat)
    (node : Node) (s : SState) : SState :=
  if ¬ s.alive then s
  else
    match fuel with
    | 0 => { s with alive := false }
    | Nat.succ f =>
      match node.node_tree with
      | none => s
      | some tid => processSubsE oracle env f (treeNodes env.graph tid) s
termination_by (fuel, 0)

/-- The `for subnode in node.node_tree.nodes` loop body of `process_node`:
recurse on `GROUP` subnodes, `process_item` on external script / IES
subnodes. -/
def processSubsE (oracle : Effect → Outcome) (env : SaveEnv) (fuel : Nat)
    (subs : List Node) (s : SState) : SState :=
  match subs with
  | [] => s
  | sub :: rest =>
    let s2 :=
      if sub.kind = NodeKind.group then
        processNodeE oracle env fuel sub s
      else if (sub.kind = NodeKind.script ∨ sub.kind = NodeKind.texIES)
          ∧ sub.mode = "EXTERNAL" then
        processItemE oracle env sub.filepath s
      else s
    processSubsE oracle env fuel rest s2
termination_by (fuel, subs.length + 1)

end

/-- `process_item` over one category's items, applying the filter. -/
def processCatItems (oracle : Effect → Outcome) (env : SaveEnv)
    (items : List Item) (matchRules mismatchRules : List (String × String))
    (s : SState) : SState :=
  match items with
  | [] => s
  | item :: rest =>
    let s2 :=
      if itemFilter matchRules mismatchRules item then
        processItemE oracle env item.filepath s
      else s
    processCatItems oracle env rest matchRules mismatchRules s2

/-- The category loop of `SaveVersion.execute`. -/
def itemsPhase (oracle : Effect → Outcome) (env : SaveEnv) (s : SState) :
    SState :=
  (categoriesTable env).foldl
    (fun s c => processCatItems oracle env c.1 c.2.1 c.2.2 s) s

/-- `process_node` over a list of top-level datablocks; each top-level call
starts with a fresh recursion budget (Python's stack resets per call). -/
def processNodesList (oracle : Effect → Outcome) (env : SaveEnv) (fuel : Nat)
    (nodes : List Node) (s : SState) : SState :=
  match nodes with
  | [] => s
  | n :: rest => processNodesList oracle env fuel rest (processNodeE oracle env fuel n s)

/-- The save sequence of `SaveVersion.execute` from `setup_workdir()`
through the final `commit` (everything before `cleanup_workdir()`):
setup, conditional `git init` + `git config --unset core.worktree`,
`save_as_mainfile`, hard-link of the .blend into the workdir (this
`os.link` is *not* wrapped in a try), `git add` of its basename, the
category loop, `process_node` over `chain(materials, lights)` and then
over `lights` again, and `git commit -m<comment>`. -/
def saveSequence (oracle : Effect → Outcome) (env : SaveEnv)
    (comment : String) (fuel : Nat) : SState :=
  let work_dir := get_workdir_name env.filepath
  let s := setup_workdir_E oracle env.filepath initState
  let s :=
    if ¬ env.repoIsDir then
      let s := emit oracle false (do_git env.filepath ["init"] true) s
      emit oracle false
        (do_git env.filepath ["config", "--unset", "core.worktree"] true) s
    else s
  let s := emit oracle false (Effect.saveMainfile env.filepath) s
  let s :=
    emit oracle false
      (Effect.hardlink env.filepath
        (pyJoin work_dir (pyBasename env.filepath))) s
  let s :=
    emit oracle false
      (do_git env.filepath ["add", "--", pyBasename env.filepath] true) s
  let s := itemsPhase oracle env s
  let s := processNodesList oracle env fuel (env.materials ++ env.lights) s
  let s := processNodesList oracle env fuel env.lights s
  emit oracle false (do_git env.filepath ["commit", "-m" ++ comment] true) s

/-- `SaveVersion.execute`: reject an all-whitespace comment up front
(report + `{"CANCELLED"}`, no side effect); otherwise run the save
sequence, `cleanup_workdir()` (`shutil.rmtree` of the work directory —
reached only if nothing raised, since there is no try/finally), and return
`{"FINISHED"}`.  An uncaught exception anywhere yields `exception`. -/
def saveExecute (oracle : Effect → Outcome) (env : SaveEnv)
    (comment : String) (fuel : Nat) : SState × OpResult :=
  if (pyStrip comment).length ≠ 0 then
    let s :=
      emit oracle false (Effect.rmtree (get_workdir_name env.filepath))
        (saveSequence oracle env comment fuel)
    (s, if s.alive then OpResult.finished else OpResult.exception)
  else
    ({ trace := [Effect.report "Comment cannot be empty"], alive := true,
       seen := [] },
     OpResult.cancelled)

/-- Python `line.split(" ", 2)` (maxsplit 2). -/
def pySplitMax2 (line : String) : List String :=
  match line.splitOn " " with
  | a :: b :: rest =>
    if rest.isEmpty then [a, b] else [a, b, String.intercalate " " rest]
  | other => other

/-- `list_commits`: if the repo directory exists, run
`git log --format=%H %ct %s` (read mode) and turn each nonempty line into
`(hash, formatted_time ++ ": " ++ subject, "")`; otherwise return the
single sentinel `("", "No repo found", "")` and run nothing.
`format_compact_datetime(int(entry[1]))` depends on the wall clock and
locale, so it is abstracted as the parameter `fmtDatetime` applied to the
raw timestamp field. -/
def list_commits (filepath : String) (repoIsDir : Bool) (gitLogOutput : String)
    (fmtDatetime : String → String) :
    List (String × String × String) × List Effect :=
  if repoIsDir then
    (((gitLogOutput.splitOn "\n").filter fun line => line.length ≠ 0).map
      (fun line =>
        let entry := pySplitMax2 line
        (entry.getD 0 "", fmtDatetime (entry.getD 1 "") ++ ": " ++ entry.getD 2 "",
          "")),
     [do_git filepath ["log", "--format=%H %ct %s"] false])
  else
    ([("", "No repo found", "")], [])

/-- `LoadVersion.execute`: with a nonempty selected commit id, force a
checkout of that commit (read mode) and reopen the .blend from disk;
with the empty id (the no-history sentinel's id), `{"CANCELLED"}` with no
effect at all. -/
def loadExecute (filepath commit : String) : List Effect × OpResult :=
  if commit.length ≠ 0 then
    ([do_git filepath ["checkout", "-f", commit, "."] false,
      Effect.openMainfile filepath],
     OpResult.finished)
  else
    ([], OpResult.cancelled)

/-- `SaveVersion.invoke`: open the properties dialog if the document has
been saved, otherwise report an error and cancel with no side effect. -/
def saveInvoke (filepath : String) : List Effect × InvokeResult :=
  if doc_saved filepath then ([], InvokeResult.dialog)
  else ([Effect.report "Need to save the new document first"],
        InvokeResult.cancelled)

/-- `LoadVersion.invoke`: textually the same check as `SaveVersion.invoke`. -/
def loadInvoke (filepath : String) : List Effect × InvokeResult :=
  if doc_saved filepath then ([], InvokeResult.dialog)
  else ([Effect.report "Need to save the new document first"],
        InvokeResult.cancelled)

/-! ### Derived notions used to state the properties -/

/-- The oracle under which every external call succeeds. -/
def allOk : Effect → Outcome := fun _ => Outcome.ok

/-- The staged destination path `process_item` computes for an asset
filepath: `os.path.join(work_dir, item.filepath[2:])`. -/
def dstPath (env : SaveEnv) (p : String) : String :=
  pyJoin (get_workdir_name env.filepath) (p.drop 2)

/-- The `git add` invocation `process_item` performs for an asset
filepath. -/
def itemAddE (env : SaveEnv) (p : String) : Effect :=
  Effect.gitCmd ["add", "--", dstPath env p] none (get_workdir_name env.filepath)

/-- The hard-link call `process_item` performs for an asset filepath. -/
def itemLinkE (env : SaveEnv) (p : String) : Effect :=
  Effect.hardlink (pyJoin (pySplitHead env.filepath) (p.drop 2)) (dstPath env p)

/-- The filepaths of the category assets that pass their category's
filter, in loop order (before dedup). -/
def includedFilepaths (env : SaveEnv) : List String :=
  ((categoriesTable env).map fun c =>
    (c.1.filter (itemFilter c.2.1 c.2.2)).map Item.filepath).flatten

/-- The filepaths of every node in every composition graph of the
environment (a superset of what the node walk can feed to
`process_item`). -/
def graphFilepaths (env : SaveEnv) : List String :=
  ((env.graph.map fun t => t.2).flatten).map Node.filepath

/-- Every filepath that can reach `process_item` during a save. -/
def processableList (env : SaveEnv) : List String :=
  includedFilepaths env ++ graphFilepaths env

/-- Whether a directory (the staging directory) exists after a trace of
effects, given the outcome each attempted effect had: `os.mkdir` makes it
present unless it errored (an `already` outcome means it was already
present), `shutil.rmtree` removes it when it succeeds.  (A failed `mkdir`
kills the execution before any `makedirs` can run, so intermediate
directory creation under the staging directory is irrelevant here.) -/
def dirPresent (oracle : Effect → Outcome) (wd : String) (pre : Bool) :
    List Effect → Bool
  | [] => pre
  | e :: rest =>
    let now :=
      match e with
      | Effect.mkdir p =>
        if p = wd then (match oracle e with | Outcome.err => pre | _ => true)
        else pre
      | Effect.rmtree p =>
        if p = wd then (match oracle e with | Outcome.ok => false | _ => pre)
        else pre
      | _ => pre
    dirPresent oracle wd now rest

/-- The closure walk over one node-bearing datablock terminates: some
finite recursion depth completes it without a `RecursionError`. -/
def walkTerminates (env : SaveEnv) (node : Node) : Prop :=
  ∃ fuel, (processNodeE allOk env fuel node initState).alive = true

/-- A rank function certifying that grouping references are well-founded:
inside the graph of identity `tid`, every `GROUP` subnode refers to a
graph of strictly smaller rank (and a `GROUP` subnode with no graph still
needs one stack frame, hence a positive rank). -/
def rankOK (g : List (String × List Node)) (r : String → Nat) : Bool :=
  g.all fun pr => pr.2.all fun sub =>
    if sub.kind = NodeKind.group then
      match sub.node_tree with
      | some tid => decide (r tid < r pr.1)
      | none => decide (0 < r pr.1)
    else true

/-- A Git invocation in write mode: `GIT_DIR` absent from the subprocess
environment and the staging tree as working directory.  Non-Git effects
satisfy this trivially. -/
def writeModeOK (env : SaveEnv) (e : Effect) : Prop :=
  match e with
  | Effect.gitCmd _ gd cwd => gd = none ∧ cwd = get_workdir_name env.filepath
  | _ => True

/-- A Git invocation in read/restore mode: `GIT_DIR` set to the repository
location and the document's parent directory as working directory.
Non-Git effects satisfy this trivially. -/
def readModeOK (filepath : String) (e : Effect) : Prop :=
  match e with
  | Effect.gitCmd _ gd cwd =>
    gd = some (get_repo_name filepath) ∧ cwd = pySplitHead filepath
  | _ => True

/-- The dedup invariant of the save execution for one asset filepath `p`:
once `p` is in `seen_filepaths` its hard link and its `git add` each occur
exactly once in the trace, and before that they occur not at all. -/
def dedupInv (env : SaveEnv) (p : String) (s : SState) : Prop :=
  (p ∈ s.seen →
    s.trace.count (itemLinkE env p) = 1 ∧ s.trace.count (itemAddE env p) = 1)
  ∧ (p ∉ s.seen →
    s.trace.count (itemLinkE env p) = 0 ∧ s.trace.count (itemAddE env p) = 0)

/-! ### The spec's stated inclusion rule, for comparison with the
source-derived `itemFilter` (refinement form of claim C4) -/

/-- Spec wording for fonts: not packed, relative to the document, not
escaping upward, and not flagged as the built-in font. -/
def specIncludeFont (i : Item) : Bool :=
  !i.packed_file && pyStartswith i.filepath "//"
    && !(pyStartswith i.filepath "//..") && !(i.filepath = "<builtin>")

/-- Spec wording for images: not packed, relative, not escaping, and
explicitly typed as a standard image. -/
def specIncludeImage (i : Item) : Bool :=
  !i.packed_file && pyStartswith i.filepath "//"
    && !(pyStartswith i.filepath "//..") && (i.type = "IMAGE")

/-- Spec wording for libraries and sounds: not packed, relative, not
escaping; no category-specific rule. -/
def specIncludePlain (i : Item) : Bool :=
  !i.packed_file && pyStartswith i.filepath "//"
    && !(pyStartswith i.filepath "//..")

/-! ### Concrete fixtures for counterexamples and witnesses -/

/-- A document path used in the concrete scenarios. -/
def exPath : String := "/home/u/doc.blend"

/-- An environment with no references at all and an existing repo. -/
def exEnvEmpty : SaveEnv :=
  { filepath := exPath, repoIsDir := true, fonts := [], images := [],
    libraries := [], sounds := [], materials := [], lights := [], graph := [] }

/-- An oracle that makes every `git add` fail (nonzero exit →
`CalledProcessError`) and everything else succeed: a backend failure at
the add step. -/
def failAddOracle : Effect → Outcome := fun e =>
  match e with
  | Effect.gitCmd ("add" :: _) _ _ => Outcome.err
  | _ => Outcome.ok

/-- An oracle modelling a stale staging directory left by a crash, with
its `.git` link already in place: both creation calls report
"already exists". -/
def staleOracle : Effect → Outcome := fun e =>
  match e with
  | Effect.mkdir _ => Outcome.already
  | Effect.symlink _ _ => Outcome.already
  | _ => Outcome.ok

/-- A grouping node that references the composition graph `"T"`. -/
def cycNode : Node :=
  { kind := NodeKind.group, node_tree := some "T", mode := "", filepath := "" }

/-- A composition graph in which the graph `"T"` contains a grouping node
referencing `"T"` itself: a direct self-reference. -/
def cycEnv : SaveEnv :=
  { exEnvEmpty with graph := [("T", [cycNode])] }

/-- An acyclic two-level grouping: graph `"A"` contains a group node for
graph `"B"`, which contains an external script leaf. -/
def acyEnv : SaveEnv :=
  { exEnvEmpty with
    graph :=
      [("A", [{ kind := NodeKind.group, node_tree := some "B", mode := "",
                filepath := "" }]),
       ("B", [{ kind := NodeKind.script, node_tree := none,
                mode := "EXTERNAL", filepath := "//lib/s.osl" }])] }

/-- The embedded (A), external-relative (B), escaping (C) images and the
built-in-flagged font (D) of the closure-completeness scenario. -/
def exItemA : Item := { packed_file := true, filepath := "//A.png", type := "IMAGE" }

/-- External, relative, standard image: the one reference that must be
collected. -/
def exItemB : Item := { packed_file := false, filepath := "//B.png", type := "IMAGE" }

/-- External but escaping above the document's directory. -/
def exItemC : Item := { packed_file := false, filepath := "//../C.png", type := "IMAGE" }

/-- A font flagged as the built-in default. -/
def exItemD : Item := { packed_file := false, filepath := "<builtin>", type := "" }

/-- The closure-completeness environment: images A, B, C and font D. -/
def exEnvABCD : SaveEnv :=
  { exEnvEmpty with fonts := [exItemD], images := [exItemA, exItemB, exItemC] }

/-- Two distinct image assets referencing the same relative path. -/
def exEnvDup : SaveEnv :=
  { exEnvEmpty with
    images :=
      [{ packed_file := false, filepath := "//tex/t.png", type := "IMAGE" },
       { packed_file := false, filepath := "//tex/t.png", type := "IMAGE" }] }

/-! ## Basic lemmas about the execution machinery -/

theorem emit_dead (oracle : Effect → Outcome) (tol : Bool) (e : Effect)
    (s : SState) (h : s.alive = false) : emit oracle tol e s = s := by
  simp [emit, h]

theorem emit_strict_alive (oracle : Effect → Outcome) (e : Effect) (s : SState)
    (h : (emit oracle false e s).alive = true) :
    s.alive = true ∧ oracle e = Outcome.ok ∧
      (emit oracle false e s).trace = s.trace ++ [e] := by
  by_cases ha : s.alive
  · cases ho : oracle e <;> simp [emit, ha, ho] at h ⊢
  · simp [emit, ha] at h

theorem emit_allOk_eq (tol : Bool) (e : Effect) (s : SState)
    (h : s.alive = true) :
    emit allOk tol e s = { s with trace := s.trace ++ [e] } := by
  simp [emit, allOk, h]

theorem emit_allOk_alive (tol : Bool) (e : Effect) (s : SState) :
    (emit allOk tol e s).alive = s.alive := by
  by_cases h : s.alive
  · simp [emit, allOk, h]
  · simp [emit, allOk, h]

theorem emit_seen (oracle : Effect → Outcome) (tol : Bool) (e : Effect)
    (s : SState) : (emit oracle tol e s).seen = s.seen := by
  by_cases h : s.alive
  · cases ho : oracle e <;> simp [emit, h, ho]
  · simp [emit, h]

theorem dirPresent_append (oracle : Effect → Outcome) (wd : String)
    (pre : Bool) (t1 t2 : List Effect) :
    dirPresent oracle wd pre (t1 ++ t2) =
      dirPresent oracle wd (dirPresent oracle wd pre t1) t2 := by
  induction t1 generalizing pre with
  | nil => rfl
  | cons e rest ih => simp [dirPresent, ih]

/-! ## Claim theorems (simple control-flow claims) -/

/-- Claim C1 is false on the code: `SaveVersion.execute` has no
try/finally, so a backend failure at the `add` step (an oracle that makes
every `git add` exit nonzero) propagates and `cleanup_workdir()` is never
reached — the staging directory is still present afterwards, and the
operation ends in an uncaught exception rather than any result. -/
theorem save_add_failure_leaves_workdir :
    (saveExecute failAddOracle exEnvEmpty "msg" 9).2 = OpResult.exception ∧
    dirPresent failAddOracle (get_workdir_name exEnvEmpty.filepath) false
      (saveExecute failAddOracle exEnvEmpty "msg" 9).1.trace = true := by
  decide

/-- Claim C1 (amended): the staging directory is guaranteed absent only on
the success path — whenever `SaveVersion.execute` returns `FINISHED`, its
trace ends with a successful `rmtree` of the staging directory, so the
directory is absent afterwards (for any prior existence state `b`).  A
failure at any step instead propagates as an exception and skips the
cleanup. -/
theorem save_cleanup_on_success (oracle : Effect → Outcome) (env : SaveEnv)
    (comment : String) (fuel : Nat) (b : Bool)
    (h : (saveExecute oracle env comment fuel).2 = OpResult.finished) :
    dirPresent oracle (get_workdir_name env.filepath) b
      (saveExecute oracle env comment fuel).1.trace = false := by
  unfold saveExecute at h ⊢
  by_cases hc : (pyStrip comment).length ≠ 0
  · simp only [if_pos hc] at h ⊢
    by_cases ha :
        (emit oracle false (Effect.rmtree (get_workdir_name env.filepath))
          (saveSequence oracle env comment fuel)).alive
    · obtain ⟨-, hok, htr⟩ := emit_strict_alive _ _ _ ha
      rw [htr, dirPresent_append]
      simp [dirPresent, hok]
    · simp [ha] at h
  · simp only [if_neg hc] at h
    cases h

/-- Claim C1 witness: a fully successful save (every call succeeds, empty
reference set) finishes, and the staging directory is absent afterwards. -/
theorem save_cleanup_on_success_witness :
    (saveExecute allOk exEnvEmpty "msg" 9).2 = OpResult.finished ∧
    dirPresent allOk (get_workdir_name exEnvEmpty.filepath) false
      (saveExecute allOk exEnvEmpty "msg" 9).1.trace = false :=
  ⟨by decide, save_cleanup_on_success allOk exEnvEmpty "msg" 9 false (by decide)⟩

/-- Claim C3: a comment that is empty after stripping whitespace is
rejected up front: the operator reports "Comment cannot be empty" and
returns `CANCELLED`, and the trace holds nothing but that report — no
staging directory creation, no Git invocation, no commit — for every
oracle, environment and fuel. -/
theorem save_empty_comment_rejected (oracle : Effect → Outcome)
    (env : SaveEnv) (comment : String) (fuel : Nat)
    (h : (pyStrip comment).length = 0) :
    saveExecute oracle env comment fuel =
      ({ trace := [Effect.report "Comment cannot be empty"], alive := true,
         seen := [] }, OpResult.cancelled) := by
  unfold saveExecute
  simp [h]

/-- Claim C3 witness: both `""` and `"   "` are rejected with no side
effect. -/
theorem save_empty_comment_rejected_witness :
    saveExecute allOk exEnvEmpty "" 9 =
      ({ trace := [Effect.report "Comment cannot be empty"], alive := true,
         seen := [] }, OpResult.cancelled) ∧
    saveExecute allOk exEnvEmpty "   " 9 =
      ({ trace := [Effect.report "Comment cannot be empty"], alive := true,
         seen := [] }, OpResult.cancelled) :=
  ⟨save_empty_comment_rejected allOk exEnvEmpty "" 9 (by decide),
   save_empty_comment_rejected allOk exEnvEmpty "   " 9 (by decide)⟩

/-- Claim C7 is false on the code: with a stale staging directory whose
internal `.git` link already exists (both creation calls report "already
exists"), `setup_workdir` does *not* succeed — only the `os.mkdir` is
wrapped in the EEXIST-tolerant try, while the `os.symlink` call is
outside it, so its `FileExistsError` propagates. -/
theorem setup_stale_link_fails :
    staleOracle (Effect.mkdir (get_workdir_name exPath)) = Outcome.already ∧
    staleOracle
        (Effect.symlink ("../" ++ pyBasename (get_repo_name exPath))
          (pyJoin (get_workdir_name exPath) ".git")) = Outcome.already ∧
    (setup_workdir_E staleOracle exPath initState).alive = false := by
  decide

/-- Claim C7 (amended): a stale staging *directory* alone is tolerated —
`setup_workdir` succeeds whenever the `mkdir` either succeeds or reports
"already exists" and the `.git` link does not exist yet (its creation
succeeds); any `mkdir` failure other than "already exists" propagates.
The internal repository link is recreated unconditionally, so if it also
survived the crash, the link creation fails and the error propagates. -/
theorem setup_workdir_tolerates_stale_dir (oracle : Effect → Outcome)
    (fp : String) (s : SState) :
    (s.alive = true →
      oracle (Effect.mkdir (get_workdir_name fp)) ≠ Outcome.err →
      oracle (Effect.symlink ("../" ++ pyBasename (get_repo_name fp))
        (pyJoin (get_workdir_name fp) ".git")) = Outcome.ok →
      (setup_workdir_E oracle fp s).alive = true)
    ∧ (s.alive = true →
        oracle (Effect.mkdir (get_workdir_name fp)) = Outcome.err →
        (setup_workdir_E oracle fp s).alive = false) := by
  constructor
  · intro ha hmk hln
    unfold setup_workdir_E
    cases hm : oracle (Effect.mkdir (get_workdir_name fp)) with
    | ok => simp [emit, ha, hm, hln]
    | already => simp [emit, ha, hm, hln]
    | err => exact absurd hm hmk
  · intro ha hmk
    unfold setup_workdir_E
    simp [emit, ha, hmk]

/-- Claim C7 witness: a stale directory without the link is reused (mkdir
reports "already exists", symlink succeeds, setup completes), while a
plain mkdir error propagates. -/
theorem setup_workdir_tolerates_stale_dir_witness :
    ((fun e => match e with
       | Effect.mkdir _ => Outcome.already
       | _ => Outcome.ok) (Effect.mkdir (get_workdir_name exPath))
        ≠ Outcome.err) ∧
    (setup_workdir_E
      (fun e => match e with
        | Effect.mkdir _ => Outcome.already
        | _ => Outcome.ok) exPath initState).alive = true :=
  ⟨by decide,
   (setup_workdir_tolerates_stale_dir
      (fun e => match e with
        | Effect.mkdir _ => Outcome.already
        | _ => Outcome.ok) exPath initState).1 rfl (by decide) rfl⟩

/-- Claim C8: when the repository directory for the current document does
not exist, `list_commits` returns exactly the single sentinel entry
`("", "No repo found", "")` and invokes no Git command at all, for every
document path, log output and timestamp formatter. -/
theorem list_commits_no_repo (fp gitLog : String) (fmt : String → String) :
    list_commits fp false gitLog fmt = ([("", "No repo found", "")], []) :=
  rfl

/-- Claim C8 witness. -/
theorem list_commits_no_repo_witness :
    list_commits exPath false "" (fun s => s) = ([("", "No repo found", "")], []) :=
  list_commits_no_repo exPath "" (fun s => s)

/-- Claim C9: with no on-disk path yet (`bpy.data.filepath` empty), both
`SaveVersion.invoke` and `LoadVersion.invoke` refuse the operation with a
`CANCELLED` result, emitting nothing but the error report — no Git
command, no filesystem effect. -/
theorem invoke_unsaved_refused (fp : String) (h : fp.length = 0) :
    saveInvoke fp =
      ([Effect.report "Need to save the new document first"],
        InvokeResult.cancelled)
    ∧ loadInvoke fp =
      ([Effect.report "Need to save the new document first"],
        InvokeResult.cancelled) := by
  unfold saveInvoke loadInvoke doc_saved
  simp [h]

/-- Claim C9 witness: the never-saved document (empty path). -/
theorem invoke_unsaved_refused_witness :
    saveInvoke "" =
      ([Effect.report "Need to save the new document first"],
        InvokeResult.cancelled)
    ∧ loadInvoke "" =
      ([Effect.report "Need to save the new document first"],
        InvokeResult.cancelled) :=
  invoke_unsaved_refused "" (by decide)

/-- Claim C10: with the empty commit identifier — exactly the identifier
carried by the no-history sentinel of `list_commits` — `LoadVersion.execute`
cancels with no effect at all: no Git command and no reopening of the
document from disk. -/
theorem load_empty_commit_cancelled :
    (∀ fp : String, loadExecute fp "" = ([], OpResult.cancelled))
    ∧ (∀ (fp gitLog : String) (fmt : String → String),
        (list_commits fp false gitLog fmt).1.map Prod.fst = [""]) := by
  exact ⟨fun fp => rfl, fun fp gitLog fmt => rfl⟩

/-- Claim C4: for every asset of a trackable category, the source's
filter (the match/mismatch table row for that category) is exactly the
spec's conjunction — not packed, path relative to the document, path not
escaping upward, not matching the category's exclusion rule (the built-in
font), matching the category's inclusion rule (image typed `IMAGE`) — and
on the concrete scenario (A embedded, B external-relative, C escaping
upward, D built-in-flagged) the collected closure is exactly
`[exItemB.filepath]`, i.e. {B}. -/
theorem closure_inclusion_rule :
    (∀ i : Item, itemFilter [] [("filepath", "<builtin>")] i = specIncludeFont i)
    ∧ (∀ i : Item, itemFilter [("type", "IMAGE")] [] i = specIncludeImage i)
    ∧ (∀ i : Item, itemFilter [] [] i = specIncludePlain i)
    ∧ includedFilepaths exEnvABCD = [exItemB.filepath] := by
  refine ⟨?_, ?_, ?_, by decide⟩
  · intro i
    simp [itemFilter, specIncludeFont, pyGetattr]
  · intro i
    simp [itemFilter, specIncludeImage, pyGetattr]
  · intro i
    simp [itemFilter, specIncludePlain, pyGetattr]

/-- Claim C4 witness: the rule evaluated at the four concrete assets. -/
theorem closure_inclusion_rule_witness :
    itemFilter [] [("filepath", "<builtin>")] exItemD = specIncludeFont exItemD
    ∧ itemFilter [("type", "IMAGE")] [] exItemA = specIncludeImage exItemA
    ∧ itemFilter [("type", "IMAGE")] [] exItemB = specIncludeImage exItemB
    ∧ itemFilter [("type", "IMAGE")] [] exItemC = specIncludeImage exItemC :=
  ⟨closure_inclusion_rule.1 exItemD, closure_inclusion_rule.2.1 exItemA,
   closure_inclusion_rule.2.1 exItemB, closure_inclusion_rule.2.1 exItemC⟩

/-- Claim C10 witness. -/
theorem load_empty_commit_cancelled_witness :
    loadExecute exPath "" = ([], OpResult.cancelled) :=
  load_empty_commit_cancelled.1 exPath

/-! ## Node-walk termination (claim C2) -/

theorem lookup_mem {α β : Type} [BEq α] [LawfulBEq α] (a : α)
    (l : List (α × β)) (b : β) (h : List.lookup a l = some b) : (a, b) ∈ l := by
  induction l with
  | nil => simp [List.lookup] at h
  | cons hd tl ih =>
    obtain ⟨k, v⟩ := hd
    rw [List.lookup] at h
    by_cases he : a == k
    · simp only [he] at h
      cases h
      have hak : a = k := eq_of_beq he
      subst hak
      exact List.mem_cons_self _ _
    · simp only [Bool.not_eq_true] at he
      simp only [he] at h
      exact List.mem_cons_of_mem _ (ih h)

theorem processItemE_allOk_alive (env : SaveEnv) (q : String) (s : SState) :
    (processItemE allOk env q s).alive = s.alive := by
  unfold processItemE
  split
  · rfl
  · split
    · rfl
    · simp only [emit_allOk_alive]
      split
      · simp [emit_allOk_alive]
      · simp [emit_allOk_alive]

/-- A self-referencing grouping makes the walk exhaust any recursion
budget: for every fuel, the walk over `cycNode` dies (a `RecursionError`). -/
theorem cyc_walk_dead :
    ∀ (fuel : Nat) (s : SState),
      (processNodeE allOk cycEnv fuel cycNode s).alive = false := by
  intro fuel
  induction fuel with
  | zero =>
    intro s
    by_cases h : s.alive
    · simp [processNodeE, h]
    · simp only [Bool.not_eq_true] at h
      simp [processNodeE, h]
  | succ n ih =>
    intro s
    by_cases h : s.alive
    · have h1 :
          processNodeE allOk cycEnv (n + 1) cycNode s =
            processSubsE allOk cycEnv n (treeNodes cycEnv.graph "T") s := by
        rw [processNodeE]
        simp [h, cycNode]
      have ht : treeNodes cycEnv.graph "T" = [cycNode] := by decide
      have h2 :
          processSubsE allOk cycEnv n [cycNode] s =
            processNodeE allOk cycEnv n cycNode s := by
        rw [processSubsE, processSubsE]
        rw [if_pos (show cycNode.kind = NodeKind.group from rfl)]
      rw [h1, ht, h2]
      exact ih _
    · simp only [Bool.not_eq_true] at h
      rw [processNodeE]
      simp [h]

/-- Claim C2 is false on the code: `process_node` tracks no visited node
identities, so on a composition graph whose grouping node references its
own graph the recursive walk does not terminate (in CPython it dies with
`RecursionError` once the recursion limit is reached; no reference set is
produced). -/
theorem walk_cycle_not_terminating : ¬ walkTerminates cycEnv cycNode := by
  rintro ⟨fuel, h⟩
  rw [cyc_walk_dead fuel initState] at h
  cases h

/-- The core termination argument for well-founded grouping references:
with `rankOK`, a recursion budget exceeding the rank of the entered graph
completes the walk with no `RecursionError`. -/
theorem rank_walk_alive (env : SaveEnv) (r : String → Nat)
    (hrank : rankOK env.graph r = true) :
    ∀ fuel : Nat,
      (∀ (node : Node) (s : SState), s.alive = true →
        (∀ t, node.node_tree = some t → r t < fuel) →
        (node.node_tree = none → 0 < fuel) →
        (processNodeE allOk env fuel node s).alive = true)
      ∧ (∀ (subs : List Node) (s : SState), s.alive = true →
          (∀ sub ∈ subs, sub.kind = NodeKind.group →
            (∀ t, sub.node_tree = some t → r t < fuel)
              ∧ (sub.node_tree = none → 0 < fuel)) →
          (processSubsE allOk env fuel subs s).alive = true) := by
  have hrank' :
      ∀ pr ∈ env.graph, ∀ sub ∈ pr.2, sub.kind = NodeKind.group →
        (∀ t, sub.node_tree = some t → r t < r pr.1)
          ∧ (sub.node_tree = none → 0 < r pr.1) := by
    intro pr hpr sub hsub hg
    have := List.all_eq_true.mp hrank pr hpr
    have h2 := List.all_eq_true.mp this sub hsub
    rw [if_pos hg] at h2
    constructor
    · intro t ht
      rw [ht] at h2
      exact of_decide_eq_true h2
    · intro ht
      rw [ht] at h2
      exact of_decide_eq_true h2
  have hsubsOf :
      ∀ (fuel : Nat),
        (∀ (node : Node) (s : SState), s.alive = true →
          (∀ t, node.node_tree = some t → r t < fuel) →
          (node.node_tree = none → 0 < fuel) →
          (processNodeE allOk env fuel node s).alive = true) →
        (∀ (subs : List Node) (s : SState), s.alive = true →
          (∀ sub ∈ subs, sub.kind = NodeKind.group →
            (∀ t, sub.node_tree = some t → r t < fuel)
              ∧ (sub.node_tree = none → 0 < fuel)) →
          (processSubsE allOk env fuel subs s).alive = true) := by
    intro fuel hnode subs
    induction subs with
    | nil =>
      intro s hs _
      rw [processSubsE]
      exact hs
    | cons sub rest ihl =>
      intro s hs hb
      rw [processSubsE]
      by_cases hg : sub.kind = NodeKind.group
      · simp only [if_pos hg]
        apply ihl
        · exact hnode sub s hs (hb sub (List.mem_cons_self _ _) hg).1
            (hb sub (List.mem_cons_self _ _) hg).2
        · intro x hx hxg
          exact hb x (List.mem_cons_of_mem _ hx) hxg
      · simp only [if_neg hg]
        by_cases hsc :
            (sub.kind = NodeKind.script ∨ sub.kind = NodeKind.texIES)
              ∧ sub.mode = "EXTERNAL"
        · simp only [if_pos hsc]
          apply ihl
          · rw [processItemE_allOk_alive]
            exact hs
          · intro x hx hxg
            exact hb x (List.mem_cons_of_mem _ hx) hxg
        · simp only [if_neg hsc]
          apply ihl _ hs
          intro x hx hxg
          exact hb x (List.mem_cons_of_mem _ hx) hxg
  intro fuel
  induction fuel with
  | zero =>
    constructor
    · intro node s _ hsome hnone
      cases ht : node.node_tree with
      | none => exact absurd (hnone ht) (by omega)
      | some t => exact absurd (hsome t ht) (by omega)
    · exact hsubsOf 0 (by
        intro node s _ hsome hnone
        cases ht : node.node_tree with
        | none => exact absurd (hnone ht) (by omega)
        | some t => exact absurd (hsome t ht) (by omega))
  | succ n ih =>
    have hnode :
        ∀ (node : Node) (s : SState), s.alive = true →
          (∀ t, node.node_tree = some t → r t < n + 1) →
          (node.node_tree = none → 0 < n + 1) →
          (processNodeE allOk env (n + 1) node s).alive = true := by
      intro node s hs hsome _
      rw [processNodeE]
      simp only [hs]
      cases ht : node.node_tree with
      | none => simpa using hs
      | some tid =>
        simp only []
        apply hsubsOf n ih.1 _ s hs
        intro sub hsub hg
        unfold treeNodes at hsub
        cases hlk : List.lookup tid env.graph with
        | none => rw [hlk] at hsub; cases hsub
        | some subs =>
          rw [hlk] at hsub
          have hmem := lookup_mem tid env.graph subs hlk
          have hr := hrank' (tid, subs) hmem sub hsub hg
          have htid : r tid ≤ n := Nat.lt_succ_iff.mp (hsome tid ht)
          constructor
          · intro t hsome2
            exact Nat.lt_of_lt_of_le (hr.1 t hsome2) htid
          · intro hnone2
            exact Nat.lt_of_lt_of_le (hr.2 hnone2) htid
    exact ⟨hnode, hsubsOf (n + 1) hnode⟩

/-- Claim C2 (amended): the closure walk terminates (and, being a walk
that only ever conses onto a finite list, yields a finite reference set)
whenever the grouping references are well-founded — certified by any rank
function under which every nested grouping strictly decreases.  With a
grouping node that directly or indirectly references itself no such rank
exists, and the walk does not terminate (see the counterexample). -/
theorem walk_ranked_terminates (env : SaveEnv) (r : String → Nat)
    (node : Node) (hrank : rankOK env.graph r = true) :
    walkTerminates env node := by
  refine ⟨node.node_tree.elim 1 (fun t => r t + 1), ?_⟩
  apply (rank_walk_alive env r hrank _).1 node initState rfl
  · intro t ht
    rw [ht]
    simp [Option.elim]
  · intro ht
    rw [ht]
    simp [Option.elim]

/-- Claim C2 witness: a two-level acyclic grouping (group node → graph
`"B"` → external script leaf) terminates, certified by an explicit rank. -/
theorem walk_ranked_terminates_witness :
    rankOK acyEnv.graph (fun t => if t = "A" then 2 else 1) = true ∧
    walkTerminates acyEnv
      { kind := NodeKind.group, node_tree := some "A", mode := "",
        filepath := "" } :=
  ⟨by decide,
   walk_ranked_terminates acyEnv (fun t => if t = "A" then 2 else 1) _ (by decide)⟩

/-! ## Git invocation mode discipline (claim C6) -/

theorem emit_trace_mem (oracle : Effect → Outcome) (tol : Bool) (e : Effect)
    (s : SState) (x : Effect) (hx : x ∈ (emit oracle tol e s).trace) :
    x ∈ s.trace ∨ x = e := by
  by_cases ha : s.alive
  · cases ho : oracle e <;>
      · simp only [emit, ha, ho] at hx
        simp only [not_true, if_neg, List.mem_append, List.mem_singleton] at hx
        simpa using hx
  · rw [emit_dead oracle tol e s (by simpa using ha)] at hx
    exact Or.inl hx

theorem do_git_saving_writeModeOK (env : SaveEnv) (args : List String) :
    writeModeOK env (do_git env.filepath args true) := by
  simp [do_git, writeModeOK]

theorem processItemE_trace_mem (oracle : Effect → Outcome) (env : SaveEnv)
    (q : String) (s : SState) (x : Effect)
    (hx : x ∈ (processItemE oracle env q s).trace) :
    x ∈ s.trace ∨ writeModeOK env x := by
  unfold processItemE at hx
  split at hx
  · exact Or.inl hx
  split at hx
  · exact Or.inl hx
  rcases emit_trace_mem _ _ _ _ _ hx with hx2 | rfl
  · rcases emit_trace_mem _ _ _ _ _ hx2 with hx3 | rfl
    · split at hx3
      · rcases emit_trace_mem _ _ _ _ _ hx3 with hx4 | rfl
        · exact Or.inl hx4
        · exact Or.inr (by simp [writeModeOK])
      · exact Or.inl hx3
    · exact Or.inr (by simp [writeModeOK])
  · exact Or.inr (do_git_saving_writeModeOK env _)

theorem processCatItems_trace_mem (oracle : Effect → Outcome) (env : SaveEnv)
    (items : List Item) (m mm : List (String × String)) (s : SState)
    (x : Effect) (hx : x ∈ (processCatItems oracle env items m mm s).trace) :
    x ∈ s.trace ∨ writeModeOK env x := by
  induction items generalizing s with
  | nil => exact Or.inl hx
  | cons item rest ih =>
    rw [processCatItems] at hx
    rcases ih _ hx with hx2 | hok
    · split at hx2
      · exact processItemE_trace_mem oracle env _ s x hx2
      · exact Or.inl hx2
    · exact Or.inr hok

theorem node_trace_mem (oracle : Effect → Outcome) (env : SaveEnv) :
    ∀ fuel : Nat,
      (∀ (node : Node) (s : SState) (x : Effect),
        x ∈ (processNodeE oracle env fuel node s).trace →
        x ∈ s.trace ∨ writeModeOK env x)
      ∧ (∀ (subs : List Node) (s : SState) (x : Effect),
          x ∈ (processSubsE oracle env fuel subs s).trace →
          x ∈ s.trace ∨ writeModeOK env x) := by
  have hsubsOf :
      ∀ fuel : Nat,
        (∀ (node : Node) (s : SState) (x : Effect),
          x ∈ (processNodeE oracle env fuel node s).trace →
          x ∈ s.trace ∨ writeModeOK env x) →
        (∀ (subs : List Node) (s : SState) (x : Effect),
          x ∈ (processSubsE oracle env fuel subs s).trace →
          x ∈ s.trace ∨ writeModeOK env x) := by
    intro fuel hnode subs
    induction subs with
    | nil =>
      intro s x hx
      rw [processSubsE] at hx
      exact Or.inl hx
    | cons sub rest ihl =>
      intro s x hx
      rw [processSubsE] at hx
      rcases ihl _ x hx with hx2 | hok
      · split at hx2
        · exact hnode sub s x hx2
        · split at hx2
          · exact processItemE_trace_mem oracle env _ s x hx2
          · exact Or.inl hx2
      · exact Or.inr hok
  intro fuel
  induction fuel with
  | zero =>
    have hnode :
        ∀ (node : Node) (s : SState) (x : Effect),
          x ∈ (processNodeE oracle env 0 node s).trace →
          x ∈ s.trace ∨ writeModeOK env x := by
      intro node s x hx
      rw [processNodeE] at hx
      split at hx
      · exact Or.inl hx
      · exact Or.inl hx
    exact ⟨hnode, hsubsOf 0 hnode⟩
  | succ n ih =>
    have hnode :
        ∀ (node : Node) (s : SState) (x : Effect),
          x ∈ (processNodeE oracle env (n + 1) node s).trace →
          x ∈ s.trace ∨ writeModeOK env x := by
      intro node s x hx
      rw [processNodeE] at hx
      split at hx
      · exact Or.inl hx
      · cases ht : node.node_tree with
        | none =>
          rw [ht] at hx
          exact Or.inl hx
        | some tid =>
          rw [ht] at hx
          exact hsubsOf n ih.1 _ s x hx
    exact ⟨hnode, hsubsOf (n + 1) hnode⟩

theorem processNodesList_trace_mem (oracle : Effect → Outcome) (env : SaveEnv)
    (fuel : Nat) (nodes : List Node) (s : SState) (x : Effect)
    (hx : x ∈ (processNodesList oracle env fuel nodes s).trace) :
    x ∈ s.trace ∨ writeModeOK env x := by
  induction nodes generalizing s with
  | nil => exact Or.inl hx
  | cons n rest ih =>
    rw [processNodesList] at hx
    rcases ih _ hx with hx2 | hok
    · exact (node_trace_mem oracle env fuel).1 n s x hx2
    · exact Or.inr hok

theorem saveSequence_trace_mem (oracle : Effect → Outcome) (env : SaveEnv)
    (comment : String) (fuel : Nat) (x : Effect)
    (hx : x ∈ (saveSequence oracle env comment fuel).trace) :
    writeModeOK env x := by
  unfold saveSequence at hx
  rcases emit_trace_mem _ _ _ _ _ hx with hx | rfl
  · rcases processNodesList_trace_mem _ _ _ _ _ _ hx with hx | hok
    · rcases processNodesList_trace_mem _ _ _ _ _ _ hx with hx | hok
      · rcases processCatItems_trace_mem _ _ _ _ _ _ _
            (by simpa [itemsPhase, categoriesTable] using hx) with hx | hok
        · rcases processCatItems_trace_mem _ _ _ _ _ _ _ hx with hx | hok
          · rcases processCatItems_trace_mem _ _ _ _ _ _ _ hx with hx | hok
            · rcases processCatItems_trace_mem _ _ _ _ _ _ _ hx with hx | hok
              · rcases emit_trace_mem _ _ _ _ _ hx with hx | rfl
                · rcases emit_trace_mem _ _ _ _ _ hx with hx | rfl
                  · rcases emit_trace_mem _ _ _ _ _ hx with hx | rfl
                    · split at hx
                      · rcases emit_trace_mem _ _ _ _ _ hx with hx | rfl
                        · rcases emit_trace_mem _ _ _ _ _ hx with hx | rfl
                          · unfold setup_workdir_E at hx
                            rcases emit_trace_mem _ _ _ _ _ hx with hx | rfl
                            · rcases emit_trace_mem _ _ _ _ _ hx with hx | rfl
                              · cases hx
                              · simp [writeModeOK]
                            · simp [writeModeOK]
                          · exact do_git_saving_writeModeOK env _
                        · exact do_git_saving_writeModeOK env _
                      · unfold setup_workdir_E at hx
                        rcases emit_trace_mem _ _ _ _ _ hx with hx | rfl
                        · rcases emit_trace_mem _ _ _ _ _ hx with hx | rfl
                          · cases hx
                          · simp [writeModeOK]
                        · simp [writeModeOK]
                    · simp [writeModeOK]
                  · simp [writeModeOK]
                · exact do_git_saving_writeModeOK env _
              · exact hok
            · exact hok
          · exact hok
        · exact hok
      · exact hok
    · exact hok
  · exact do_git_saving_writeModeOK env _

/-- Claim C6: `do_git` runs write-mode invocations (`saving = True`, used
for `init`, `config`, `add`, `commit`) with `GIT_DIR` absent and the
staging tree as cwd, and read-mode invocations (`log`, `checkout`) with
`GIT_DIR` set to the repository location and the document's parent
directory as cwd; accordingly every Git command in any save trace is in
write mode, and every Git command issued by `list_commits` or
`LoadVersion.execute` is in read mode. -/
theorem git_mode_discipline :
    (∀ (fp : String) (args : List String),
      do_git fp args true = Effect.gitCmd args none (get_workdir_name fp))
    ∧ (∀ (fp : String) (args : List String),
        do_git fp args false =
          Effect.gitCmd args (some (get_repo_name fp)) (pySplitHead fp))
    ∧ (∀ (oracle : Effect → Outcome) (env : SaveEnv) (comment : String)
        (fuel : Nat) (x : Effect),
        x ∈ (saveExecute oracle env comment fuel).1.trace → writeModeOK env x)
    ∧ (∀ (fp gitLog : String) (repoIsDir : Bool) (fmt : String → String)
        (x : Effect),
        x ∈ (list_commits fp repoIsDir gitLog fmt).2 → readModeOK fp x)
    ∧ (∀ (fp commit : String) (x : Effect),
        x ∈ (loadExecute fp commit).1 → readModeOK fp x) := by
  refine ⟨fun fp args => rfl, fun fp args => rfl, ?_, ?_, ?_⟩
  · intro oracle env comment fuel x hx
    unfold saveExecute at hx
    split at hx
    · rcases emit_trace_mem _ _ _ _ _ hx with hx | rfl
      · exact saveSequence_trace_mem oracle env comment fuel x hx
      · simp [writeModeOK]
    · simp only [List.mem_singleton] at hx
      subst hx
      simp [writeModeOK]
  · intro fp gitLog repoIsDir fmt x hx
    unfold list_commits at hx
    split at hx
    · simp only [List.mem_singleton] at hx
      subst hx
      simp [do_git, readModeOK]
    · cases hx
  · intro fp commit x hx
    unfold loadExecute at hx
    by_cases hc : commit.length ≠ 0
    · rw [if_pos hc] at hx
      simp only [List.mem_cons, List.mem_singleton, List.not_mem_nil,
        or_false] at hx
      rcases hx with hx | hx
      · subst hx
        simp [do_git, readModeOK]
      · subst hx
        simp [readModeOK]
    · rw [if_neg hc] at hx
      cases hx

/-- Claim C6 witness: the discipline evaluated at the concrete document
path, at a write-mode `add` and a read-mode `log`. -/
theorem git_mode_discipline_witness :
    do_git exPath ["add", "--", "doc.blend"] true =
      Effect.gitCmd ["add", "--", "doc.blend"] none (get_workdir_name exPath)
    ∧ do_git exPath ["log", "--format=%H %ct %s"] false =
      Effect.gitCmd ["log", "--format=%H %ct %s"]
        (some (get_repo_name exPath)) (pySplitHead exPath) :=
  ⟨git_mode_discipline.1 exPath ["add", "--", "doc.blend"],
   git_mode_discipline.2.1 exPath ["log", "--format=%H %ct %s"]⟩

/-! ## Separating the primary file's staging effects from the
per-reference effects (claim C5) -/

theorem string_data_inj {s t : String} (h : s.data = t.data) : s = t := by
  cases s
  cases t
  exact congrArg String.mk h

theorem pyJoin_abs (a b : String) (t : List Char) (h : b.data = '/' :: t) :
    pyJoin a b = b := by
  unfold pyJoin
  rw [h]
  rfl

theorem pyJoin_rel (a b : String) (h : ∀ t, b.data ≠ '/' :: t) :
    pyJoin a b = a ++ "/" ++ b := by
  unfold pyJoin
  split
  · next c t heq => exact absurd heq (h t)
  · rfl

theorem pyBasename_no_slash (s : String) : '/' ∉ (pyBasename s).data := by
  unfold pyBasename
  suffices h : ∀ (l acc : List Char), '/' ∉ acc →
      '/' ∉ l.foldl (fun acc c => if c = '/' then [] else acc ++ [c]) acc by
    exact h s.data [] (by simp)
  intro l
  induction l with
  | nil =>
    intro acc h
    simpa using h
  | cons c rest ih =>
    intro acc h
    rw [List.foldl_cons]
    by_cases hc : c = '/'
    · exact ih _ (by simp [hc])
    · apply ih
      intro hmem
      rcases (by simpa [hc] using hmem : '/' ∈ acc ∨ '/' = c) with h1 | h2
      · exact h h1
      · exact hc h2.symm

theorem dstPath_has_slash (env : SaveEnv) (p : String) :
    '/' ∈ (dstPath env p).data := by
  unfold dstPath pyJoin
  split
  · next heq => rw [heq]; exact List.mem_cons_self _ _
  · show '/' ∈ (get_workdir_name env.filepath ++ "/").data ++ (String.drop p 2).data
    apply List.mem_append_left
    show '/' ∈ (get_workdir_name env.filepath).data ++ ['/']
    exact List.mem_append_right _ (List.mem_singleton.mpr rfl)

theorem dstPath_ne_pyBasename (env : SaveEnv) (p : String) :
    dstPath env p ≠ pyBasename env.filepath := by
  intro h
  exact pyBasename_no_slash env.filepath (h ▸ dstPath_has_slash env p)

theorem pyBasename_not_abs (s : String) :
    ∀ t, (pyBasename s).data ≠ '/' :: t := by
  intro t ht
  exact pyBasename_no_slash s (ht ▸ List.mem_cons_self '/' t)

theorem primaryAdd_ne_itemAddE (env : SaveEnv) (p : String) :
    do_git env.filepath ["add", "--", pyBasename env.filepath] true
      ≠ itemAddE env p := by
  intro h
  injection h with hargs h2 h3
  injection hargs with _ hrest
  injection hrest with _ hrest2
  injection hrest2 with hdst _
  exact dstPath_ne_pyBasename env p hdst.symm

theorem primaryLink_ne_itemLinkE (env : SaveEnv) (p : String)
    (hbase : String.drop p 2 ≠ pyBasename env.filepath) :
    Effect.hardlink env.filepath
        (pyJoin (get_workdir_name env.filepath) (pyBasename env.filepath))
      ≠ itemLinkE env p := by
  intro h
  simp only [itemLinkE, Effect.hardlink.injEq] at h
  obtain ⟨hsrc, hdst⟩ := h
  rw [pyJoin_rel _ _ (pyBasename_not_abs env.filepath)] at hdst
  by_cases habs : ∃ t, (String.drop p 2).data = '/' :: t
  · obtain ⟨t, ht⟩ := habs
    rw [show dstPath env p = String.drop p 2 from pyJoin_abs _ _ t ht] at hdst
    rw [pyJoin_abs _ _ t ht] at hsrc
    rw [← hsrc] at hdst
    have hlen := congrArg String.length hdst
    rw [String.length_append, String.length_append] at hlen
    rw [get_workdir_name, String.length_append] at hlen
    have h5 : (".work" : String).length = 5 := by decide
    have h1 : ("/" : String).length = 1 := by decide
    omega
  · rw [show dstPath env p =
          get_workdir_name env.filepath ++ "/" ++ String.drop p 2 from
        pyJoin_rel _ _ (fun t ht => habs ⟨t, ht⟩)] at hdst
    have hdata := congrArg String.data hdst
    have hcancel :
        (pyBasename env.filepath).data = (String.drop p 2).data :=
      List.append_cancel_left hdata
    exact hbase (string_data_inj hcancel).symm

/-! ## The dedup invariant through the save execution (claim C5) -/

theorem count_append_ne (x e : Effect) (t : List Effect) (h : e ≠ x) :
    (t ++ [e]).count x = t.count x := by
  rw [List.count_append, List.count_singleton']
  simp [h]

theorem count_append_self (x : Effect) (t : List Effect) :
    (t ++ [x]).count x = t.count x + 1 := by
  rw [List.count_append, List.count_singleton']
  simp

theorem emit_trace (oracle : Effect → Outcome) (tol : Bool) (e : Effect)
    (s : SState) :
    (emit oracle tol e s).trace =
      if s.alive then s.trace ++ [e] else s.trace := by
  by_cases h : s.alive
  · cases ho : oracle e <;> simp [emit, h, ho]
  · simp [emit, h]

theorem itemAddE_ne_itemLinkE (env : SaveEnv) (p q : String) :
    itemAddE env q ≠ itemLinkE env p := by
  simp [itemAddE, itemLinkE]

theorem makedirs_ne_itemLinkE (env : SaveEnv) (p : String) (d : String) :
    Effect.makedirs d ≠ itemLinkE env p := by
  simp [itemLinkE]

theorem makedirs_ne_itemAddE (env : SaveEnv) (p : String) (d : String) :
    Effect.makedirs d ≠ itemAddE env p := by
  simp [itemAddE]

theorem itemLinkE_ne_of_dst_ne (env : SaveEnv) (p q : String)
    (hd : dstPath env q ≠ dstPath env p) :
    itemLinkE env q ≠ itemLinkE env p := by
  intro h
  injection h with h1 h2
  exact hd h2

theorem itemAddE_ne_of_dst_ne (env : SaveEnv) (p q : String)
    (hd : dstPath env q ≠ dstPath env p) :
    itemAddE env q ≠ itemAddE env p := by
  intro h
  injection h with hargs _ _
  injection hargs with _ hrest
  injection hrest with _ hrest2
  injection hrest2 with hdst _
  exact hd hdst

theorem dedupInv_emit (env : SaveEnv) (p : String) (oracle : Effect → Outcome)
    (tol : Bool) (e : Effect) (s : SState)
    (hl : e ≠ itemLinkE env p) (ha : e ≠ itemAddE env p)
    (h : dedupInv env p s) : dedupInv env p (emit oracle tol e s) := by
  obtain ⟨h1, h2⟩ := h
  constructor
  · intro hp
    rw [emit_seen] at hp
    rw [emit_trace]
    split
    · exact ⟨by rw [count_append_ne _ _ _ hl]; exact (h1 hp).1,
        by rw [count_append_ne _ _ _ ha]; exact (h1 hp).2⟩
    · exact h1 hp
  · intro hp
    rw [emit_seen] at hp
    rw [emit_trace]
    split
    · exact ⟨by rw [count_append_ne _ _ _ hl]; exact (h2 hp).1,
        by rw [count_append_ne _ _ _ ha]; exact (h2 hp).2⟩
    · exact h2 hp

theorem processItemE_dead (oracle : Effect → Outcome) (env : SaveEnv)
    (q : String) (s : SState) (h : s.alive = false) :
    processItemE oracle env q s = s := by
  unfold processItemE
  rw [if_pos (by simp [h])]

theorem processItemE_seen (oracle : Effect → Outcome) (env : SaveEnv)
    (q : String) (s : SState) (h : s.alive = true) (hq : q ∈ s.seen) :
    processItemE oracle env q s = s := by
  unfold processItemE
  rw [if_neg (by simp [h]), if_pos hq]

theorem processItemE_allOk_unseen (env : SaveEnv) (q : String) (s : SState)
    (ha : s.alive = true) (hq : q ∉ s.seen) :
    (processItemE allOk env q s).alive = true ∧
    (processItemE allOk env q s).seen = q :: s.seen ∧
    ∃ pre : List Effect,
      (∀ x ∈ pre, ∃ d, x = Effect.makedirs d) ∧
      (processItemE allOk env q s).trace =
        s.trace ++ pre ++ [itemLinkE env q, itemAddE env q] := by
  have hstep : processItemE allOk env q s =
      emit allOk false (do_git env.filepath ["add", "--", dstPath env q] true)
        (emit allOk true (itemLinkE env q)
          (if (pySplitHead (String.drop q 2)).length ≠ 0 then
            emit allOk true
              (Effect.makedirs
                (pyJoin (get_workdir_name env.filepath)
                  (pySplitHead (String.drop q 2))))
              { s with seen := q :: s.seen }
           else { s with seen := q :: s.seen })) := by
    unfold processItemE
    rw [if_neg (by simp [ha]), if_neg hq]
    rfl
  rw [hstep]
  by_cases hc : (pySplitHead (String.drop q 2)).length ≠ 0
  · rw [if_pos hc]
    refine ⟨by simp [emit_allOk_alive, ha], by simp [emit_seen],
      [Effect.makedirs
        (pyJoin (get_workdir_name env.filepath)
          (pySplitHead (String.drop q 2)))], ?_, ?_⟩
    · intro x hx
      rw [List.mem_singleton] at hx
      exact ⟨_, hx⟩
    · simp [emit_trace, emit_allOk_alive, ha, itemAddE, do_git]
  · rw [if_neg hc]
    refine ⟨by simp [emit_allOk_alive, ha], by simp [emit_seen], [], ?_, ?_⟩
    · intro x hx
      cases hx
    · simp [emit_trace, emit_allOk_alive, ha, itemAddE, do_git]

theorem dedupInv_processItemE (env : SaveEnv) (p : String)
    (hdisj : ∀ q ∈ processableList env, q ≠ p →
      dstPath env q ≠ dstPath env p)
    (q : String) (hq : q ∈ processableList env) (s : SState)
    (h : dedupInv env p s) : dedupInv env p (processItemE allOk env q s) := by
  by_cases hal : s.alive = true
  · by_cases hseen : q ∈ s.seen
    · rw [processItemE_seen allOk env q s hal hseen]
      exact h
    · obtain ⟨-, hseen', pre, hpre, htr⟩ :=
        processItemE_allOk_unseen env q s hal hseen
      have hpreL : pre.count (itemLinkE env p) = 0 := by
        rw [List.count_eq_zero]
        intro hmem
        obtain ⟨d, hd⟩ := hpre _ hmem
        exact makedirs_ne_itemLinkE env p d hd.symm
      have hpreA : pre.count (itemAddE env p) = 0 := by
        rw [List.count_eq_zero]
        intro hmem
        obtain ⟨d, hd⟩ := hpre _ hmem
        exact makedirs_ne_itemAddE env p d hd.symm
      by_cases hqp : q = p
      · subst hqp
        obtain ⟨c1, c2⟩ := h.2 hseen
        constructor
        · intro _
          constructor
          · rw [htr, List.count_append, List.count_append, hpreL, c1]
            simp [List.count_cons, itemAddE_ne_itemLinkE env q q]
          · rw [htr, List.count_append, List.count_append, hpreA, c2]
            simp [List.count_cons, (itemAddE_ne_itemLinkE env q q).symm]
        · intro hp
          rw [hseen'] at hp
          exact absurd (List.mem_cons_self _ _) hp
      · have hdq := hdisj q hq hqp
        have hlq := itemLinkE_ne_of_dst_ne env p q hdq
        have haq := itemAddE_ne_of_dst_ne env p q hdq
        constructor
        · intro hp
          rw [hseen'] at hp
          have hp' : p ∈ s.seen := by
            rcases List.mem_cons.mp hp with h1 | h1
            · exact absurd h1.symm hqp
            · exact h1
          obtain ⟨c1, c2⟩ := h.1 hp'
          constructor
          · rw [htr, List.count_append, List.count_append, hpreL, c1]
            have e1 : itemLinkE env q ≠ itemLinkE env p := hlq
            have e2 : itemAddE env q ≠ itemLinkE env p :=
              itemAddE_ne_itemLinkE env p q
            simp [List.count_cons, e1, e2]
          · rw [htr, List.count_append, List.count_append, hpreA, c2]
            have e1 : itemLinkE env q ≠ itemAddE env p :=
              fun hh => (itemAddE_ne_itemLinkE env q p) hh.symm
            have e2 : itemAddE env q ≠ itemAddE env p := haq
            simp [List.count_cons, e1, e2]
        · intro hp
          rw [hseen'] at hp
          have hp' : p ∉ s.seen := fun hmem =>
            hp (List.mem_cons_of_mem _ hmem)
          obtain ⟨c1, c2⟩ := h.2 hp'
          constructor
          · rw [htr, List.count_append, List.count_append, hpreL, c1]
            have e1 : itemLinkE env q ≠ itemLinkE env p := hlq
            have e2 : itemAddE env q ≠ itemLinkE env p :=
              itemAddE_ne_itemLinkE env p q
            simp [List.count_cons, e1, e2]
          · rw [htr, List.count_append, List.count_append, hpreA, c2]
            have e1 : itemLinkE env q ≠ itemAddE env p :=
              fun hh => (itemAddE_ne_itemLinkE env q p) hh.symm
            have e2 : itemAddE env q ≠ itemAddE env p := haq
            simp [List.count_cons, e1, e2]
  · rw [processItemE_dead allOk env q s (by simpa using hal)]
    exact h

theorem processItemE_seen_mono (oracle : Effect → Outcome) (env : SaveEnv)
    (q : String) (s : SState) (x : String) (hx : x ∈ s.seen) :
    x ∈ (processItemE oracle env q s).seen := by
  unfold processItemE
  split
  · exact hx
  · split
    · exact hx
    · simp only [emit_seen]
      split
      · simp only [emit_seen]
        exact List.mem_cons_of_mem _ hx
      · exact List.mem_cons_of_mem _ hx

theorem processItemE_mem_seen (env : SaveEnv) (q : String) (s : SState)
    (hs : s.alive = true) : q ∈ (processItemE allOk env q s).seen := by
  by_cases hseen : q ∈ s.seen
  · rw [processItemE_seen allOk env q s hs hseen]
    exact hseen
  · rw [(processItemE_allOk_unseen env q s hs hseen).2.1]
    exact List.mem_cons_self _ _

theorem processCatItems_seen_mono (oracle : Effect → Outcome) (env : SaveEnv)
    (items : List Item) (m mm : List (String × String)) :
    ∀ (s : SState) (x : String), x ∈ s.seen →
      x ∈ (processCatItems oracle env items m mm s).seen := by
  induction items with
  | nil =>
    intro s x hx
    exact hx
  | cons item rest ih =>
    intro s x hx
    rw [processCatItems]
    split
    · exact ih _ _ (processItemE_seen_mono oracle env _ s x hx)
    · exact ih _ _ hx

theorem processCatItems_allOk_alive (env : SaveEnv) (items : List Item)
    (m mm : List (String × String)) :
    ∀ s : SState, (processCatItems allOk env items m mm s).alive = s.alive := by
  induction items with
  | nil =>
    intro s
    rfl
  | cons item rest ih =>
    intro s
    rw [processCatItems]
    split
    · rw [ih, processItemE_allOk_alive]
    · rw [ih]

theorem processCatItems_covers (env : SaveEnv) (items : List Item)
    (m mm : List (String × String)) :
    ∀ (s : SState), s.alive = true → ∀ q,
      q ∈ (items.filter (itemFilter m mm)).map Item.filepath →
      q ∈ (processCatItems allOk env items m mm s).seen := by
  induction items with
  | nil =>
    intro s _ q hq
    simp at hq
  | cons item rest ih =>
    intro s hs q hq
    rw [processCatItems]
    by_cases hf : itemFilter m mm item = true
    · rw [if_pos hf]
      rcases (by simpa [List.filter_cons, hf] using hq :
          q = item.filepath ∨
            q ∈ (rest.filter (itemFilter m mm)).map Item.filepath) with
        rfl | hq2
      · exact processCatItems_seen_mono allOk env rest m mm _ _
          (processItemE_mem_seen env _ s hs)
      · exact ih _ (by rw [processItemE_allOk_alive]; exact hs) q hq2
    · rw [if_neg hf]
      rcases (by simpa [List.filter_cons, hf] using hq :
          q ∈ (rest.filter (itemFilter m mm)).map Item.filepath) with hq2
      exact ih s hs q hq2

theorem dedupInv_processCatItems (env : SaveEnv) (p : String)
    (hdisj : ∀ q ∈ processableList env, q ≠ p →
      dstPath env q ≠ dstPath env p)
    (items : List Item) (m mm : List (String × String))
    (hsub : ∀ i ∈ items, itemFilter m mm i = true →
      i.filepath ∈ processableList env) :
    ∀ s : SState, dedupInv env p s →
      dedupInv env p (processCatItems allOk env items m mm s) := by
  induction items with
  | nil =>
    intro s h
    exact h
  | cons item rest ih =>
    intro s h
    rw [processCatItems]
    by_cases hf : itemFilter m mm item = true
    · rw [if_pos hf]
      exact ih (fun i hi hfi => hsub i (List.mem_cons_of_mem _ hi) hfi) _
        (dedupInv_processItemE env p hdisj item.filepath
          (hsub item (List.mem_cons_self _ _) hf) s h)
    · rw [if_neg hf]
      exact ih (fun i hi hfi => hsub i (List.mem_cons_of_mem _ hi) hfi) s h

theorem treeNodes_subset (env : SaveEnv) (tid : String) :
    ∀ sub ∈ treeNodes env.graph tid,
      sub ∈ ((env.graph.map fun t => t.2).flatten) := by
  intro sub hsub
  unfold treeNodes at hsub
  cases hlk : List.lookup tid env.graph with
  | none =>
    rw [hlk] at hsub
    cases hsub
  | some subs =>
    rw [hlk] at hsub
    exact List.mem_flatten.mpr
      ⟨subs, List.mem_map.mpr ⟨(tid, subs),
        lookup_mem tid env.graph subs hlk, rfl⟩, hsub⟩

theorem node_seen_mono (oracle : Effect → Outcome) (env : SaveEnv) :
    ∀ fuel : Nat,
      (∀ (node : Node) (s : SState) (x : String), x ∈ s.seen →
        x ∈ (processNodeE oracle env fuel node s).seen)
      ∧ (∀ (subs : List Node) (s : SState) (x : String), x ∈ s.seen →
          x ∈ (processSubsE oracle env fuel subs s).seen) := by
  have hsubsOf :
      ∀ fuel : Nat,
        (∀ (node : Node) (s : SState) (x : String), x ∈ s.seen →
          x ∈ (processNodeE oracle env fuel node s).seen) →
        (∀ (subs : List Node) (s : SState) (x : String), x ∈ s.seen →
          x ∈ (processSubsE oracle env fuel subs s).seen) := by
    intro fuel hnode subs
    induction subs with
    | nil =>
      intro s x hx
      rw [processSubsE]
      exact hx
    | cons sub rest ihl =>
      intro s x hx
      rw [processSubsE]
      apply ihl
      split
      · exact hnode sub s x hx
      · split
        · exact processItemE_seen_mono oracle env _ s x hx
        · exact hx
  intro fuel
  induction fuel with
  | zero =>
    have hnode :
        ∀ (node : Node) (s : SState) (x : String), x ∈ s.seen →
          x ∈ (processNodeE oracle env 0 node s).seen := by
      intro node s x hx
      rw [processNodeE]
      split
      · exact hx
      · exact hx
    exact ⟨hnode, hsubsOf 0 hnode⟩
  | succ n ih =>
    have hnode :
        ∀ (node : Node) (s : SState) (x : String), x ∈ s.seen →
          x ∈ (processNodeE oracle env (n + 1) node s).seen := by
      intro node s x hx
      rw [processNodeE]
      split
      · exact hx
      · cases ht : node.node_tree with
        | none => exact hx
        | some tid => exact hsubsOf n ih.1 _ s x hx
    exact ⟨hnode, hsubsOf (n + 1) hnode⟩

theorem node_dedupInv (env : SaveEnv) (p : String)
    (hdisj : ∀ q ∈ processableList env, q ≠ p →
      dstPath env q ≠ dstPath env p) :
    ∀ fuel : Nat,
      (∀ (node : Node) (s : SState), dedupInv env p s →
        dedupInv env p (processNodeE allOk env fuel node s))
      ∧ (∀ (subs : List Node) (s : SState),
          (∀ sub ∈ subs, sub ∈ ((env.graph.map fun t => t.2).flatten)) →
          dedupInv env p s →
          dedupInv env p (processSubsE allOk env fuel subs s)) := by
  have hsubsOf :
      ∀ fuel : Nat,
        (∀ (node : Node) (s : SState), dedupInv env p s →
          dedupInv env p (processNodeE allOk env fuel node s)) →
        (∀ (subs : List Node) (s : SState),
          (∀ sub ∈ subs, sub ∈ ((env.graph.map fun t => t.2).flatten)) →
          dedupInv env p s →
          dedupInv env p (processSubsE allOk env fuel subs s)) := by
    intro fuel hnode subs
    induction subs with
    | nil =>
      intro s _ h
      rw [processSubsE]
      exact h
    | cons sub rest ihl =>
      intro s hmem h
      rw [processSubsE]
      apply ihl _ (fun x hx => hmem x (List.mem_cons_of_mem _ hx))
      split
      · exact hnode sub s h
      · split
        · apply dedupInv_processItemE env p hdisj sub.filepath _ s h
          apply List.mem_append_right
          exact List.mem_map.mpr ⟨sub, hmem sub (List.mem_cons_self _ _), rfl⟩
        · exact h
  intro fuel
  induction fuel with
  | zero =>
    have hnode :
        ∀ (node : Node) (s : SState), dedupInv env p s →
          dedupInv env p (processNodeE allOk env 0 node s) := by
      intro node s h
      rw [processNodeE]
      split
      · exact h
      · exact h
    exact ⟨hnode, hsubsOf 0 hnode⟩
  | succ n ih =>
    have hnode :
        ∀ (node : Node) (s : SState), dedupInv env p s →
          dedupInv env p (processNodeE allOk env (n + 1) node s) := by
      intro node s h
      rw [processNodeE]
      split
      · exact h
      · cases ht : node.node_tree with
        | none => exact h
        | some tid => exact hsubsOf n ih.1 _ s (treeNodes_subset env tid) h
    exact ⟨hnode, hsubsOf (n + 1) hnode⟩

theorem processNodesList_seen_mono (oracle : Effect → Outcome)
    (env : SaveEnv) (fuel : Nat) (nodes : List Node) :
    ∀ (s : SState) (x : String), x ∈ s.seen →
      x ∈ (processNodesList oracle env fuel nodes s).seen := by
  induction nodes with
  | nil =>
    intro s x hx
    exact hx
  | cons n rest ih =>
    intro s x hx
    rw [processNodesList]
    exact ih _ x ((node_seen_mono oracle env fuel).1 n s x hx)

theorem processNodesList_dedupInv (env : SaveEnv) (p : String)
    (hdisj : ∀ q ∈ processableList env, q ≠ p →
      dstPath env q ≠ dstPath env p)
    (fuel : Nat) (nodes : List Node) :
    ∀ s : SState, dedupInv env p s →
      dedupInv env p (processNodesList allOk env fuel nodes s) := by
  induction nodes with
  | nil =>
    intro s h
    exact h
  | cons n rest ih =>
    intro s h
    rw [processNodesList]
    exact ih _ ((node_dedupInv env p hdisj fuel).1 n s h)

theorem do_git_true_eq (fp : String) (args : List String) :
    do_git fp args true = Effect.gitCmd args none (get_workdir_name fp) := rfl

theorem gitCmd_head_ne_itemAddE (env : SaveEnv) (p : String) (a : String)
    (rest : List String) (gd : Option String) (cwd : String)
    (hh : a ≠ "add") : Effect.gitCmd (a :: rest) gd cwd ≠ itemAddE env p := by
  intro h
  injection h with hargs _ _
  injection hargs with h1 _
  exact hh h1

theorem initState_dedupInv (env : SaveEnv) (p : String) :
    dedupInv env p initState := by
  constructor
  · intro hp
    cases hp
  · intro _
    exact ⟨List.count_nil _, List.count_nil _⟩

theorem setup_dedupInv (oracle : Effect → Outcome) (env : SaveEnv)
    (p : String) (s : SState) (h : dedupInv env p s) :
    dedupInv env p (setup_workdir_E oracle env.filepath s) :=
  dedupInv_emit env p oracle false _ _ (by simp [itemLinkE]) (by simp [itemAddE])
    (dedupInv_emit env p oracle true _ _ (by simp [itemLinkE]) (by simp [itemAddE]) h)

theorem setup_allOk_alive (fp : String) (s : SState) :
    (setup_workdir_E allOk fp s).alive = s.alive := by
  unfold setup_workdir_E
  rw [emit_allOk_alive, emit_allOk_alive]

theorem itemsPhase_eq (oracle : Effect → Outcome) (env : SaveEnv)
    (s : SState) :
    itemsPhase oracle env s =
      processCatItems oracle env env.sounds [] []
        (processCatItems oracle env env.libraries [] []
          (processCatItems oracle env env.images [("type", "IMAGE")] []
            (processCatItems oracle env env.fonts []
              [("filepath", "<builtin>")] s))) := rfl

theorem includedFilepaths_parts (env : SaveEnv) (q : String)
    (hq : q ∈ includedFilepaths env) :
    q ∈ (env.fonts.filter
          (itemFilter [] [("filepath", "<builtin>")])).map Item.filepath
    ∨ q ∈ (env.images.filter
          (itemFilter [("type", "IMAGE")] [])).map Item.filepath
    ∨ q ∈ (env.libraries.filter (itemFilter [] [])).map Item.filepath
    ∨ q ∈ (env.sounds.filter (itemFilter [] [])).map Item.filepath := by
  simpa [includedFilepaths, categoriesTable] using hq

theorem cat_sub (env : SaveEnv) (items : List Item)
    (m mm : List (String × String))
    (hcat : (items, m, mm) ∈ categoriesTable env) :
    ∀ i ∈ items, itemFilter m mm i = true →
      i.filepath ∈ processableList env := by
  intro i hi hf
  apply List.mem_append_left
  unfold includedFilepaths
  apply List.mem_flatten.mpr
  refine ⟨(items.filter (itemFilter m mm)).map Item.filepath, ?_, ?_⟩
  · exact List.mem_map.mpr ⟨(items, m, mm), hcat, rfl⟩
  · exact List.mem_map.mpr ⟨i, List.mem_filter.mpr ⟨hi, hf⟩, rfl⟩

theorem dedupInv_itemsPhase (env : SaveEnv) (p : String)
    (hdisj : ∀ q ∈ processableList env, q ≠ p →
      dstPath env q ≠ dstPath env p)
    (s : SState) (h : dedupInv env p s) :
    dedupInv env p (itemsPhase allOk env s) := by
  rw [itemsPhase_eq]
  apply dedupInv_processCatItems env p hdisj _ _ _
    (cat_sub env env.sounds [] [] (by simp [categoriesTable]))
  apply dedupInv_processCatItems env p hdisj _ _ _
    (cat_sub env env.libraries [] [] (by simp [categoriesTable]))
  apply dedupInv_processCatItems env p hdisj _ _ _
    (cat_sub env env.images [("type", "IMAGE")] [] (by simp [categoriesTable]))
  apply dedupInv_processCatItems env p hdisj _ _ _
    (cat_sub env env.fonts [] [("filepath", "<builtin>")]
      (by simp [categoriesTable]))
  exact h

theorem itemsPhase_allOk_alive (env : SaveEnv) (s : SState) :
    (itemsPhase allOk env s).alive = s.alive := by
  rw [itemsPhase_eq, processCatItems_allOk_alive, processCatItems_allOk_alive,
    processCatItems_allOk_alive, processCatItems_allOk_alive]

theorem itemsPhase_covers (env : SaveEnv) (s : SState) (hs : s.alive = true)
    (p : String) (hp : p ∈ includedFilepaths env) :
    p ∈ (itemsPhase allOk env s).seen := by
  rw [itemsPhase_eq]
  rcases includedFilepaths_parts env p hp with h | h | h | h
  · apply processCatItems_seen_mono
    apply processCatItems_seen_mono
    apply processCatItems_seen_mono
    exact processCatItems_covers env env.fonts _ _ s hs p h
  · apply processCatItems_seen_mono
    apply processCatItems_seen_mono
    exact processCatItems_covers env env.images _ _ _
      (by rw [processCatItems_allOk_alive]; exact hs) p h
  · apply processCatItems_seen_mono
    apply processCatItems_covers env env.libraries _ _ _ ?_ p h
    rw [processCatItems_allOk_alive, processCatItems_allOk_alive]
    exact hs
  · apply processCatItems_covers env env.sounds _ _ _ ?_ p h
    rw [processCatItems_allOk_alive, processCatItems_allOk_alive,
      processCatItems_allOk_alive]
    exact hs

theorem saveTail_invariant (env : SaveEnv) (p comment : String) (fuel : Nat)
    (hbase : String.drop p 2 ≠ pyBasename env.filepath)
    (hdisj : ∀ q ∈ processableList env, q ≠ p →
      dstPath env q ≠ dstPath env p)
    (hp : p ∈ includedFilepaths env) (s2 : SState)
    (hd2 : dedupInv env p s2) (ha2 : s2.alive = true) :
    p ∈ (emit allOk false (do_git env.filepath ["commit", "-m" ++ comment] true)
          (processNodesList allOk env fuel env.lights
            (processNodesList allOk env fuel (env.materials ++ env.lights)
              (itemsPhase allOk env
                (emit allOk false
                  (do_git env.filepath ["add", "--", pyBasename env.filepath]
                    true)
                  (emit allOk false
                    (Effect.hardlink env.filepath
                      (pyJoin (get_workdir_name env.filepath)
                        (pyBasename env.filepath)))
                    (emit allOk false (Effect.saveMainfile env.filepath)
                      s2))))))).seen
    ∧ dedupInv env p
        (emit allOk false (do_git env.filepath ["commit", "-m" ++ comment] true)
          (processNodesList allOk env fuel env.lights
            (processNodesList allOk env fuel (env.materials ++ env.lights)
              (itemsPhase allOk env
                (emit allOk false
                  (do_git env.filepath ["add", "--", pyBasename env.filepath]
                    true)
                  (emit allOk false
                    (Effect.hardlink env.filepath
                      (pyJoin (get_workdir_name env.filepath)
                        (pyBasename env.filepath)))
                    (emit allOk false (Effect.saveMainfile env.filepath)
                      s2))))))) := by
  have d3 : dedupInv env p
      (emit allOk false (Effect.saveMainfile env.filepath) s2) :=
    dedupInv_emit env p allOk false _ s2 (by simp [itemLinkE])
      (by simp [itemAddE]) hd2
  have a3 : (emit allOk false (Effect.saveMainfile env.filepath) s2).alive
      = true := by
    rw [emit_allOk_alive]
    exact ha2
  have d4 := dedupInv_emit env p allOk false _ _
    (primaryLink_ne_itemLinkE env p hbase) (by simp [itemAddE]) d3
  have a4 : (emit allOk false
      (Effect.hardlink env.filepath
        (pyJoin (get_workdir_name env.filepath) (pyBasename env.filepath)))
      (emit allOk false (Effect.saveMainfile env.filepath) s2)).alive
      = true := by
    rw [emit_allOk_alive]
    exact a3
  have d5 := dedupInv_emit env p allOk false
    (do_git env.filepath ["add", "--", pyBasename env.filepath] true) _
    (by rw [do_git_true_eq]; simp [itemLinkE])
    (primaryAdd_ne_itemAddE env p) d4
  have a5 : (emit allOk false
      (do_git env.filepath ["add", "--", pyBasename env.filepath] true)
      (emit allOk false
        (Effect.hardlink env.filepath
          (pyJoin (get_workdir_name env.filepath) (pyBasename env.filepath)))
        (emit allOk false (Effect.saveMainfile env.filepath) s2))).alive
      = true := by
    rw [emit_allOk_alive]
    exact a4
  have d6 := dedupInv_itemsPhase env p hdisj _ d5
  have cov6 := itemsPhase_covers env _ a5 p hp
  have d7 := processNodesList_dedupInv env p hdisj fuel
    (env.materials ++ env.lights) _ d6
  have cov7 := processNodesList_seen_mono allOk env fuel
    (env.materials ++ env.lights) _ p cov6
  have d8 := processNodesList_dedupInv env p hdisj fuel env.lights _ d7
  have cov8 := processNodesList_seen_mono allOk env fuel env.lights _ p cov7
  have d9 := dedupInv_emit env p allOk false
    (do_git env.filepath ["commit", "-m" ++ comment] true) _
    (by rw [do_git_true_eq]; simp [itemLinkE])
    (by rw [do_git_true_eq]; exact gitCmd_head_ne_itemAddE env p "commit" _ _ _ (by decide)) d8
  refine ⟨?_, d9⟩
  rw [emit_seen]
  exact cov8

/-- Claim C5: with every external call succeeding, for any asset filepath
`p` that some category asset contributes (in particular when two distinct
assets share it), the save trace contains *exactly one* hard-link call and
*exactly one* `git add` call for `p`'s staged path: the first reference
seen wins, later duplicates are dropped by the `seen_filepaths` check
without any further effect.  (The two side conditions say that `p`'s
staged destination is distinct from the primary .blend's staged copy and
from every other referenced path's destination — i.e. the path really is
"the same relative path" only for the duplicated assets.) -/
theorem save_dedup (env : SaveEnv) (p comment : String) (fuel : Nat)
    (hc : (pyStrip comment).length ≠ 0)
    (hp : p ∈ includedFilepaths env)
    (hbase : String.drop p 2 ≠ pyBasename env.filepath)
    (hdisj : ∀ q ∈ processableList env, q ≠ p →
      dstPath env q ≠ dstPath env p) :
    (saveExecute allOk env comment fuel).1.trace.count (itemLinkE env p) = 1
    ∧ (saveExecute allOk env comment fuel).1.trace.count (itemAddE env p)
        = 1 := by
  have hsetup : dedupInv env p (setup_workdir_E allOk env.filepath initState) :=
    setup_dedupInv allOk env p initState (initState_dedupInv env p)
  have hsetupA : (setup_workdir_E allOk env.filepath initState).alive = true := by
    rw [setup_allOk_alive]
    rfl
  have h2 : dedupInv env p
        (if ¬env.repoIsDir then
          emit allOk false
            (do_git env.filepath ["config", "--unset", "core.worktree"] true)
            (emit allOk false (do_git env.filepath ["init"] true)
              (setup_workdir_E allOk env.filepath initState))
         else setup_workdir_E allOk env.filepath initState)
      ∧ (if ¬env.repoIsDir then
          emit allOk false
            (do_git env.filepath ["config", "--unset", "core.worktree"] true)
            (emit allOk false (do_git env.filepath ["init"] true)
              (setup_workdir_E allOk env.filepath initState))
         else setup_workdir_E allOk env.filepath initState).alive = true := by
    by_cases hrepo : env.repoIsDir = true
    · rw [if_neg (by simp [hrepo])]
      exact ⟨hsetup, hsetupA⟩
    · rw [if_pos (by simp [hrepo])]
      constructor
      · exact dedupInv_emit env p allOk false _ _
          (by rw [do_git_true_eq]; simp [itemLinkE])
          (by rw [do_git_true_eq]; exact gitCmd_head_ne_itemAddE env p "config" _ _ _ (by decide))
          (dedupInv_emit env p allOk false _ _
            (by rw [do_git_true_eq]; simp [itemLinkE])
            (by rw [do_git_true_eq]; exact gitCmd_head_ne_itemAddE env p "init" _ _ _ (by decide))
            hsetup)
      · rw [emit_allOk_alive, emit_allOk_alive]
        exact hsetupA
  have hT := saveTail_invariant env p comment fuel hbase hdisj hp _ h2.1 h2.2
  have hseq :
      p ∈ (saveSequence allOk env comment fuel).seen
      ∧ dedupInv env p (saveSequence allOk env comment fuel) := hT
  obtain ⟨hmem, hinv⟩ := hseq
  obtain ⟨c1, c2⟩ := hinv.1 hmem
  have hfinal :
      (saveExecute allOk env comment fuel).1 =
        emit allOk false (Effect.rmtree (get_workdir_name env.filepath))
          (saveSequence allOk env comment fuel) := by
    unfold saveExecute
    rw [if_pos hc]
  rw [hfinal, emit_trace]
  split
  · exact ⟨by rw [count_append_ne _ _ _ (by simp [itemLinkE])]; exact c1,
      by rw [count_append_ne _ _ _ (by simp [itemAddE])]; exact c2⟩
  · exact ⟨c1, c2⟩

/-- Claim C5 witness: two distinct image assets both referencing
`"//tex/t.png"` produce exactly one hard link and exactly one `git add`
for that path, and the save still finishes without error. -/
theorem save_dedup_witness :
    ("//tex/t.png" ∈ includedFilepaths exEnvDup)
    ∧ ((saveExecute allOk exEnvDup "m" 5).1.trace.count
          (itemLinkE exEnvDup "//tex/t.png") = 1
        ∧ (saveExecute allOk exEnvDup "m" 5).1.trace.count
            (itemAddE exEnvDup "//tex/t.png") = 1)
    ∧ (saveExecute allOk exEnvDup "m" 5).2 = OpResult.finished :=
  ⟨by decide,
   save_dedup exEnvDup "//tex/t.png" "m" 5 (by decide) (by decide)
     (by decide) (by decide),
   by decide⟩

end Blendgit
